import Mathlib

/-!
Shallow embedding of the visionHubOS event-driven UI runtime
(`src/system/events.rs`, `src/system/scheduler.rs`, `src/drivers/display.rs`,
`src/ui/framework.rs`, `src/ui/screens/menu.rs`) in Lean 4, together with
theorems settling the specification claims.

Modelling conventions:
- `Instant`/`Duration` are milliseconds as `Int` (times are passed explicitly
  where the Rust code calls `Instant::now()`).
- `u32`/`u8` machine integers are `Nat`, with an explicit `% 2^32` at the one
  multiplication that can overflow.
- Callbacks (`Arc<dyn Fn()>`, `on_click`, menu-item actions) are modelled by
  opaque numeric identifiers; an invocation is the emission of that identifier
  into an invocation list.
- `Vec` indexing, which panics when out of bounds, is modelled by
  `Except String`, the `.error` case standing for the panic.
- Mutex acquire/release and event dispatch in `ScreenManager::process_events`
  are recorded in an explicit action trace so that lock-discipline claims can
  be stated.
The source file contains obvious work-in-progress typos
(`duraction_since`, `last_evemt`, `Instant::now` without parentheses,
`task_id` for `task.id`); the embedding reads them with their evident intent,
as the specification's design notes direct.
-/

namespace VisionHub

/-- `Event` from `src/system/events.rs`. -/
inductive Event where
  | buttonPressed (pin : Nat)
  | buttonReleased (pin : Nat)
  | timer (taskId : Nat)
  | systemTick
  | appLaunched (name : String)
  | appClosed (name : String)
  | custom (tag : String)
deriving DecidableEq, Repr

/-! ## ButtonEventSource (`src/system/events.rs`) -/

/-- State of `ButtonEventSource` (the pin handle and queue reference are
external; the queue is represented by the events the source emits). -/
structure ButtonEventSource where
  pin_number : Nat
  last_state : Bool
  debounce_time : Int
  last_event : Int
deriving DecidableEq, Repr

/-- `ButtonEventSource::new`: `last_state = true` (released, active-low
pull-up), `debounce_time = 50 ms`, `last_event = Instant::now()` at
construction time `now`. -/
def ButtonEventSource.new (pin_number : Nat) (now : Int) : ButtonEventSource :=
  { pin_number := pin_number
    last_state := true
    debounce_time := 50
    last_event := now }

/-- `ButtonEventSource::poll`: one poll observing pin level `current_state`
at time `now`; returns the updated state and the emitted event, if any. -/
def ButtonEventSource.poll (s : ButtonEventSource) (current_state : Bool)
    (now : Int) : ButtonEventSource × Option Event :=
  if now - s.last_event ≥ s.debounce_time then
    if current_state ≠ s.last_state then
      ({ s with last_state := current_state, last_event := now },
        some (if current_state then Event.buttonReleased s.pin_number
              else Event.buttonPressed s.pin_number))
    else (s, none)
  else (s, none)

/-- Run a sequence of polls, each a `(pin level, time)` pair, collecting the
emitted events tagged with the time they were emitted at. -/
def ButtonEventSource.pollTrace :
    ButtonEventSource → List (Bool × Int) → List (Int × Event)
  | _, [] => []
  | s, (lvl, t) :: rest =>
    match s.poll lvl t with
    | (s', some e) => (t, e) :: pollTrace s' rest
    | (s', none) => pollTrace s' rest

/-! ## DisplayManager (`src/src/drivers/display.rs`) -/

/-- `TextSize` from `src/src/drivers/display.rs`. -/
inductive TextSize where
  | small
  | normal
  | large
deriving DecidableEq, Repr

/-- Monospaced glyph metrics of an `embedded_graphics` mono font. -/
structure FontMetrics where
  charW : Nat
  lineH : Nat
deriving DecidableEq, Repr

/-- `embedded_graphics::mono_font::ascii::FONT_6X10`: 6 px wide, 10 px tall
character cells. -/
def FONT_6X10 : FontMetrics := ⟨6, 10⟩

/-- The font `DisplayManager::draw_text` selects for a given `TextSize`
(the `match size` at the top of `draw_text`). -/
def draw_text_font : TextSize → FontMetrics
  | TextSize.small => FONT_6X10
  | TextSize.normal => FONT_6X10
  | TextSize.large => FONT_6X10

/-- A primitive issued to the display; `DisplayManager::draw_rectangle`
issues `rect`, `draw_text` issues `text`. -/
inductive DrawCmd where
  | clearCmd
  | flushCmd
  | rect (x y : Int) (width height : Nat) (filled : Bool)
  | text (s : String) (x y : Int) (size : TextSize)
deriving DecidableEq, Repr

/-- `DisplayManager::draw_rectangle` as the primitive it issues. -/
def draw_rectangle (x y : Int) (width height : Nat) (filled : Bool) :
    List DrawCmd :=
  [DrawCmd.rect x y width height filled]

/-- `DisplayManager::draw_progress_bar`: `height = 8`,
`progress = progress.min(100)`, `fill_width = (width*progress)/100` in `u32`
arithmetic (the product taken mod `2^32`), an unfilled outline, then, if
`fill_width > 0`, a filled inner rectangle of width
`fill_width.saturating_sub(2)` and height `height.saturating_sub(2)`
(`Nat` subtraction is saturating). -/
def draw_progress_bar (x y : Int) (width : Nat) (progress : Nat) :
    List DrawCmd :=
  let height : Nat := 8
  let progress := min progress 100
  let fill_width := (width * progress) % 2 ^ 32 / 100
  draw_rectangle x y width height false ++
    (if fill_width > 0 then
      draw_rectangle (x + 1) (y + 1) (fill_width - 2) (height - 2) true
    else [])

/-! ## Widgets (`src/src/ui/framework.rs`) -/

/-- `Rectangle` from `src/src/ui/framework.rs`. -/
structure Rectangle where
  x : Int
  y : Int
  width : Nat
  height : Nat
deriving DecidableEq, Repr

/-- `embedded_graphics::prelude::Point`. -/
structure Point where
  x : Int
  y : Int
deriving DecidableEq, Repr

/-- `Label` from `src/src/ui/framework.rs`. `text.len()` in Rust is the
UTF-8 byte length, modelled by `String.utf8ByteSize`. -/
structure Label where
  text : String
  position : Point
  size : TextSize
  bounds : Rectangle
deriving DecidableEq, Repr

/-- `Label::new`: derives `char_width` and `height` from `size`, sets
`bounds = {x, y, text.len()*char_width, height}`. -/
def Label.new (text : String) (x y : Int) (size : TextSize) : Label :=
  let char_width : Nat :=
    match size with
    | TextSize.small => 5
    | TextSize.normal => 6
    | TextSize.large => 8
  let width := text.utf8ByteSize * char_width
  let height : Nat :=
    match size with
    | TextSize.small => 8
    | TextSize.normal => 10
    | TextSize.large => 16
  { text := text
    position := ⟨x, y⟩
    size := size
    bounds := ⟨x, y, width, height⟩ }

/-- `Label::set_text`: replaces the text and re-derives only
`bounds.width`. -/
def Label.set_text (l : Label) (text : String) : Label :=
  let char_width : Nat :=
    match l.size with
    | TextSize.small => 5
    | TextSize.normal => 6
    | TextSize.large => 8
  { l with
    text := text
    bounds := { l.bounds with width := text.utf8ByteSize * char_width } }

/-- `<Label as Widget>::draw`: one `draw_text` at `position` with `size`. -/
def Label.draw (l : Label) : List DrawCmd :=
  [DrawCmd.text l.text l.position.x l.position.y l.size]

/-- The per-character width `Label::new`/`set_text` use for measurement. -/
def label_char_width : TextSize → Nat
  | TextSize.small => 5
  | TextSize.normal => 6
  | TextSize.large => 8

/-- The line height `Label::new` uses for measurement. -/
def label_line_height : TextSize → Nat
  | TextSize.small => 8
  | TextSize.normal => 10
  | TextSize.large => 16

/-- `Button` from `src/src/ui/framework.rs`; `on_click` is an optional
callback identifier. -/
structure Button where
  label : Label
  bounds : Rectangle
  pressed : Bool
  on_click : Option Nat
deriving DecidableEq, Repr

/-- `Button::new`: centres the inner label by integer (floor) arithmetic. -/
def Button.new (text : String) (x y : Int) (width height : Nat) : Button :=
  let label_x := x + ((width : Int) - (text.utf8ByteSize : Int) * 6) / 2
  let label_y := y + ((height : Int) - 10) / 2
  { label := Label.new text label_x label_y TextSize.normal
    bounds := ⟨x, y, width, height⟩
    pressed := false
    on_click := none }

/-- `Button::set_on_click`. -/
def Button.set_on_click (b : Button) (callback : Nat) : Button :=
  { b with on_click := some callback }

/-- `<Button as Widget>::handle_event`: returns the updated button, whether
the event was handled, and the identifiers of invoked callbacks. -/
def Button.handle_event (b : Button) (event : Event) :
    Button × Bool × List Nat :=
  match event with
  | Event.buttonPressed pin =>
    if pin = 26 then ({ b with pressed := true }, true, []) else (b, false, [])
  | Event.buttonReleased pin =>
    if pin = 26 then
      ({ b with pressed := false }, true, b.on_click.toList)
    else (b, false, [])
  | _ => (b, false, [])

/-- `<Button as Widget>::draw`: bounding rectangle (filled iff `pressed`),
then the inner label. -/
def Button.draw (b : Button) : List DrawCmd :=
  draw_rectangle b.bounds.x b.bounds.y b.bounds.width b.bounds.height
      b.pressed ++
    b.label.draw

/-- `ProgressBar` from `src/src/ui/framework.rs`. -/
structure ProgressBar where
  bounds : Rectangle
  progress : Nat
deriving DecidableEq, Repr

/-- `ProgressBar::new`: height fixed at 8, progress clamped to 100. -/
def ProgressBar.new (x y : Int) (width : Nat) (progress : Nat) :
    ProgressBar :=
  { bounds := ⟨x, y, width, 8⟩, progress := min progress 100 }

/-- `ProgressBar::set_progress`. -/
def ProgressBar.set_progress (p : ProgressBar) (progress : Nat) :
    ProgressBar :=
  { p with progress := min progress 100 }

/-- `<ProgressBar as Widget>::draw`. -/
def ProgressBar.draw (p : ProgressBar) : List DrawCmd :=
  draw_progress_bar p.bounds.x p.bounds.y p.bounds.width p.progress

/-- The closed set of concrete widgets stored in a `DefaultScreen`
(`Box<dyn Widget>` over the three variants in the core). -/
inductive WidgetV where
  | labelW (l : Label)
  | buttonW (b : Button)
  | progressBarW (p : ProgressBar)
deriving DecidableEq, Repr

/-- Dynamic dispatch of `Widget::handle_event`. `Label` and `ProgressBar`
always return `false`. -/
def WidgetV.handle_event (w : WidgetV) (event : Event) :
    WidgetV × Bool × List Nat :=
  match w with
  | WidgetV.labelW l => (WidgetV.labelW l, false, [])
  | WidgetV.buttonW b =>
    let (b', handled, calls) := b.handle_event event
    (WidgetV.buttonW b', handled, calls)
  | WidgetV.progressBarW p => (WidgetV.progressBarW p, false, [])

/-- Dynamic dispatch of `Widget::draw`. -/
def WidgetV.draw : WidgetV → List DrawCmd
  | WidgetV.labelW l => l.draw
  | WidgetV.buttonW b => b.draw
  | WidgetV.progressBarW p => p.draw

/-! ## DefaultScreen (`src/src/ui/framework.rs`) -/

/-- `DisplayError` from `src/src/drivers/display.rs` (the `I2CError` payload
is opaque). -/
inductive DisplayError where
  | driverError
  | drawError
  | i2cError
deriving DecidableEq, Repr

/-- Abstract behaviour of the shared `DisplayManager`: which issued
primitives fail with `DrawError` (`embedded_graphics` draw calls are mapped
to `DrawError` on failure). -/
structure DisplayState where
  failOn : DrawCmd → Bool

/-- Execute one primitive against the display. -/
def DisplayState.runCmd (d : DisplayState) (c : DrawCmd) :
    Except DisplayError Unit :=
  if d.failOn c then Except.error DisplayError.drawError else Except.ok ()

/-- Execute a command list, stopping at the first failure (the `?` operator
in the Rust draw paths). -/
def DisplayState.runCmds (d : DisplayState) : List DrawCmd →
    Except DisplayError Unit
  | [] => Except.ok ()
  | c :: cs =>
    match d.runCmd c with
    | Except.ok _ => d.runCmds cs
    | Except.error e => Except.error e

/-- `DefaultScreen` from `src/src/ui/framework.rs`: the ordered widget
list (its `Arc<DisplayManager>` is passed explicitly where needed). -/
structure DefaultScreen where
  widgets : List WidgetV
deriving DecidableEq, Repr

/-- `DefaultScreen::new`. -/
def DefaultScreen.new : DefaultScreen := { widgets := [] }

/-- `DefaultScreen::add_widget`. -/
def DefaultScreen.add_widget (s : DefaultScreen) (w : WidgetV) :
    DefaultScreen :=
  { s with widgets := s.widgets ++ [w] }

/-- The primitives `DefaultScreen::draw` issues: clear, each widget in
insertion order, flush. -/
def DefaultScreen.drawCmds (s : DefaultScreen) : List DrawCmd :=
  DrawCmd.clearCmd :: (s.widgets.map WidgetV.draw).flatten ++ [DrawCmd.flushCmd]

/-- `<DefaultScreen as Screen>::draw` against a display behaviour. -/
def DefaultScreen.draw (s : DefaultScreen) (d : DisplayState) :
    Except DisplayError Unit :=
  d.runCmds s.drawCmds

/-- The `for widget in &mut self.widgets { if widget.handle_event(event)
{ handled = true; break; } }` loop: returns the updated widget list, whether
some widget handled the event, and all invoked callback identifiers. -/
def dispatchWidgets : List WidgetV → Event → List WidgetV × Bool × List Nat
  | [], _ => ([], false, [])
  | w :: ws, event =>
    let (w', handled, calls) := w.handle_event event
    if handled then (w' :: ws, true, calls)
    else
      let (ws', h, cs) := dispatchWidgets ws event
      (w' :: ws', h, calls ++ cs)

/-- `<DefaultScreen as Screen>::handle_event`: dispatch, then, if handled,
`let _ = self.draw()` — the repaint's (discarded) result is returned last so
claims can mention it; `none` means no repaint was attempted. -/
def DefaultScreen.handle_event (s : DefaultScreen) (d : DisplayState)
    (event : Event) :
    DefaultScreen × Bool × List Nat × Option (Except DisplayError Unit) :=
  let (ws, handled, calls) := dispatchWidgets s.widgets event
  let s' : DefaultScreen := { s with widgets := ws }
  if handled then (s', true, calls, some (s'.draw d))
  else (s', false, calls, none)

/-- Whether a widget's `handle_event` returns `true` for an event. -/
def handlesEvent (w : WidgetV) (event : Event) : Bool :=
  (w.handle_event event).2.1

/-- Index of the first widget whose `handle_event` returns `true`, if any. -/
def firstHandler : List WidgetV → Event → Option Nat
  | [], _ => none
  | w :: ws, event =>
    if handlesEvent w event then some 0
    else (firstHandler ws event).map (· + 1)

/-! ## MenuScreen (`src/src/ui/screens/menu.rs`) -/

/-- `MenuItem`: a button plus the associated action callback (identifier);
`MenuItem::new` also wires the same action as the button's `on_click`. -/
structure MenuItem where
  button : Button
  action : Nat
deriving DecidableEq, Repr

/-- `MenuItem::new`. -/
def MenuItem.new (text : String) (x y : Int) (width : Nat) (action : Nat) :
    MenuItem :=
  { button := (Button.new text x y width 15).set_on_click action
    action := action }

/-- `MenuScreen` from `src/src/ui/screens/menu.rs` (`display` handle
external; the back button's logging `on_click` is an opaque callback,
given no identifier here since it is never invoked in the claims). -/
structure MenuScreen where
  title : Label
  items : List MenuItem
  back_button : Button
  selected_index : Nat
deriving DecidableEq, Repr

/-- `MenuScreen::new`. -/
def MenuScreen.new (title : String) : MenuScreen :=
  { title := Label.new title 5 5 TextSize.normal
    items := []
    back_button := Button.new "Back" 5 50 40 15
    selected_index := 0 }

/-- `MenuScreen::add_item`. -/
def MenuScreen.add_item (s : MenuScreen) (text : String) (action : Nat) :
    MenuScreen :=
  let y_position : Int := 20 + (s.items.length : Int) * 18
  { s with items := s.items ++ [MenuItem.new text 10 y_position 108 action] }

/-- `MenuScreen::select_next`: wraparound advance when the item list is
non-empty (the swallowed `self.draw()` does not change screen state). -/
def MenuScreen.select_next (s : MenuScreen) : MenuScreen :=
  if s.items.isEmpty then s
  else { s with selected_index := (s.selected_index + 1) % s.items.length }

/-- `MenuScreen::activate_selected`: invokes the selected item's action;
returns the invoked callback identifiers (`self.items[self.selected_index]`
is always in range when reached, since `selected_index` is reduced modulo
the item count). -/
def MenuScreen.activate_selected (s : MenuScreen) : List Nat :=
  if s.items.isEmpty then []
  else
    match s.items.get? s.selected_index with
    | some item => [item.action]
    | none => []

/-- `<MenuScreen as Screen>::handle_event`: pin 32 activates the selected
item, pin 33 advances the selection; both return `true`, everything else
`false`. -/
def MenuScreen.handle_event (s : MenuScreen) (event : Event) :
    MenuScreen × Bool × List Nat :=
  match event with
  | Event.buttonPressed pin =>
    if pin = 32 then (s, true, s.activate_selected)
    else if pin = 33 then (s.select_next, true, [])
    else (s, false, [])
  | _ => (s, false, [])

/-! ## Scheduler (`src/system/scheduler.rs`) -/

/-- `ScheduledTask` (the callback is an opaque identifier-free value:
`update` is observed through the `Timer(id)` events it emits). -/
structure ScheduledTask where
  id : Nat
  next_run : Int
  interval : Option Int
deriving DecidableEq, Repr

/-- `Scheduler` state: the task heap as a multiset of tasks (list), and
`next_id`. The `impl Ord for ScheduledTask` reverses the comparison on
`next_run`, so Rust's max-`BinaryHeap` pops an element of least
`next_run`; `popMin` below realises exactly that heap interface. -/
structure Scheduler where
  tasks : List ScheduledTask
  next_id : Nat
deriving DecidableEq, Repr

/-- `Scheduler::new`. -/
def Scheduler.new : Scheduler := { tasks := [], next_id := 0 }

/-- `BinaryHeap::pop` under the reversed `Ord`: removes an element whose
`next_run` is minimal (ties broken arbitrarily in Rust; here: the earliest
listed minimum). -/
def popMin : List ScheduledTask →
    Option (ScheduledTask × List ScheduledTask)
  | [] => none
  | t :: ts =>
    match popMin ts with
    | none => some (t, [])
    | some (m, rest) =>
      if t.next_run ≤ m.next_run then some (t, ts)
      else some (m, t :: rest)

/-- `Scheduler::schedule_once`: inserts `{id := next_id, next_run :=
now + delay, interval := none}`, increments `next_id`, returns the id. -/
def Scheduler.schedule_once (s : Scheduler) (now delay : Int) :
    Scheduler × Nat :=
  ({ tasks := s.tasks ++
        [{ id := s.next_id, next_run := now + delay, interval := none }]
     next_id := s.next_id + 1 },
   s.next_id)

/-- `Scheduler::schedule_recurring` (with the `interval` parameter the
specification's design notes re-read into the signature). -/
def Scheduler.schedule_recurring (s : Scheduler) (now delay interval : Int) :
    Scheduler × Nat :=
  ({ tasks := s.tasks ++
        [{ id := s.next_id, next_run := now + delay,
           interval := some interval }]
     next_id := s.next_id + 1 },
   s.next_id)

/-- `Scheduler::cancel_task`: drains the heap into a new heap keeping tasks
whose id differs, returns whether the length changed. -/
def Scheduler.cancel_task (s : Scheduler) (id : Nat) : Scheduler × Bool :=
  let newTasks := s.tasks.filter (fun t => t.id ≠ id)
  ({ s with tasks := newTasks }, s.tasks.length ≠ newTasks.length)

/-- The `while let Some(task) = tasks.peek()` loop of `Scheduler::update`:
pops due tasks in heap order, recording each fired task, and collects the
recurring re-insertions (pushed only after the loop). `fuel` bounds the
iteration count; `tasks.length` suffices since each iteration pops. Returns
(remaining heap, fired tasks in pop order, tasks to reschedule). -/
def updateLoop : Nat → List ScheduledTask → Int →
    List ScheduledTask × List ScheduledTask × List ScheduledTask
  | 0, tasks, _ => (tasks, [], [])
  | fuel + 1, tasks, now =>
    match popMin tasks with
    | none => (tasks, [], [])
    | some (task, rest) =>
      if task.next_run ≤ now then
        let resched :=
          match task.interval with
          | some interval =>
            [{ id := task.id, next_run := now + interval,
               interval := some interval }]
          | none => []
        let (tasks', fired, res') := updateLoop fuel rest now
        (tasks', task :: fired, resched ++ res')
      else (tasks, [], [])

/-- `Scheduler::update` at time `now`: fires every due task (callback, then
a pushed `Timer(task.id)` event), re-inserting recurring tasks after the
loop. Returns the new scheduler state and the emitted `Timer` events in
emission order. -/
def Scheduler.update (s : Scheduler) (now : Int) : Scheduler × List Event :=
  let (tasks', fired, resched) := updateLoop s.tasks.length s.tasks now
  ({ s with tasks := tasks' ++ resched },
   fired.map (fun t => Event.timer t.id))

/-- A sequence of `update` calls at the given times; collects all emitted
events in order. -/
def Scheduler.runUpdates : Scheduler → List Int → Scheduler × List Event
  | s, [] => (s, [])
  | s, now :: rest =>
    let (s', evs) := s.update now
    let (s'', evs') := s'.runUpdates rest
    (s'', evs ++ evs')

/-! ## ScreenManager (`src/src/ui/framework.rs`) -/

/-- Observable actions of `ScreenManager::process_events` on the shared
event queue: taking/releasing the mutex and dispatching one event to the
active screen's `handle_event`. -/
inductive QAction where
  | acquire
  | dispatch (e : Event)
  | release
deriving DecidableEq, Repr

/-- `ScreenManager`, generic over the concrete screen state `σ` (the
`Box<dyn Screen>` objects); the shared `event_queue` is the `VecDeque`
behind the mutex. -/
structure ScreenManager (σ : Type) where
  screens : List σ
  current_screen : Nat
  event_queue : List Event

/-- `ScreenManager::new`. -/
def ScreenManager.new (σ : Type) (event_queue : List Event) :
    ScreenManager σ :=
  { screens := [], current_screen := 0, event_queue := event_queue }

/-- `ScreenManager::add_screen`. -/
def ScreenManager.add_screen {σ : Type} (m : ScreenManager σ) (s : σ) :
    ScreenManager σ :=
  { m with screens := m.screens ++ [s] }

/-- The `while let Some(event) = queue.pop_front()` loop of
`process_events`: each popped event is dispatched, under the queue lock, to
`self.screens[self.current_screen]` — a `Vec` index that panics
(`Except.error`) when out of bounds. Returns the final screen list (or the
panic) and the dispatch actions in order. -/
def processLoop {σ : Type} (step : σ → Event → σ × Bool) :
    List Event → List σ → Nat → Except String (List σ) × List QAction
  | [], screens, _ => (Except.ok screens, [])
  | e :: es, screens, cur =>
    match screens.get? cur with
    | none => (Except.error "panicked at index out of bounds", [])
    | some s =>
      let (s', _) := step s e
      let (r, tr) := processLoop step es (screens.set cur s') cur
      (r, QAction.dispatch e :: tr)

/-- `ScreenManager::process_events`: locks the queue, drains it through
`processLoop` (dispatching while the lock is held), and unlocks — on a
panic the `MutexGuard` is released by unwinding, so `release` closes the
trace in every case. -/
def ScreenManager.process_events {σ : Type} (step : σ → Event → σ × Bool)
    (m : ScreenManager σ) :
    Except String (ScreenManager σ) × List QAction :=
  let (r, tr) := processLoop step m.event_queue m.screens m.current_screen
  (r.map (fun ss => { m with screens := ss, event_queue := [] }),
   QAction.acquire :: (tr ++ [QAction.release]))

/-- `ScreenManager::get_screen_as_mut::<T>`: indexes
`self.screens[self.current_screen]` (panicking when out of bounds), then
returns `Some` of the screen iff its concrete type matches, `isT` standing
for the `TypeId` comparison. -/
def ScreenManager.get_screen_as_mut {σ : Type} (isT : σ → Bool)
    (m : ScreenManager σ) : Except String (Option σ) :=
  match m.screens.get? m.current_screen with
  | none => Except.error "panicked at index out of bounds"
  | some s => Except.ok (if isT s then some s else none)

/-- Net lock depth after a prefix of the action trace. -/
def lockDepth (tr : List QAction) : Int :=
  tr.foldl
    (fun n a =>
      match a with
      | QAction.acquire => n + 1
      | QAction.release => n - 1
      | QAction.dispatch _ => n)
    0

/-- The queue lock is not held at any dispatch: every `dispatch` in the
trace happens at lock depth 0. -/
def dispatchesOutsideLock (tr : List QAction) : Prop :=
  ∀ i e, tr.get? i = some (QAction.dispatch e) → lockDepth (tr.take i) = 0

/-- Every dispatch in the trace happens while the lock is held
(depth 1 after the initial acquire). -/
def dispatchesUnderLock (tr : List QAction) : Prop :=
  ∀ i e, tr.get? i = some (QAction.dispatch e) → lockDepth (tr.take i) = 1

/-- The events dispatched by a trace, in order. -/
def dispatchedEvents : List QAction → List Event
  | [] => []
  | QAction.dispatch e :: tr => e :: dispatchedEvents tr
  | _ :: tr => dispatchedEvents tr

/-- What the specification describes for `process_events`: copy the queued
events into a local buffer inside the critical section, release the lock,
then dispatch each copied event. Stated for comparison with
`ScreenManager.process_events`. -/
def processEventsSpecTrace (queue : List Event) : List QAction :=
  QAction.acquire :: QAction.release :: queue.map QAction.dispatch

/-! ## Helper definitions used by the theorems -/

/-- Apply a sequence of `Label::set_text` calls. -/
def applySetTexts (l : Label) (ts : List String) : Label :=
  ts.foldl Label.set_text l

/-- Schedule a batch of one-shot tasks at the same base time `t0`. -/
def scheduleAll (t0 : Int) (ds : List Int) : Scheduler :=
  ds.foldl (fun s d => (s.schedule_once t0 d).1) Scheduler.new

/-- The tasks `Scheduler::update` pops and fires, in firing order. -/
def Scheduler.updateFired (s : Scheduler) (now : Int) : List ScheduledTask :=
  (updateLoop s.tasks.length s.tasks now).2.1

/-- The three-item menu of scenario S4, with action identifiers `a`, `b`,
`c` for items "A", "B", "C". -/
def menuABC (a b c : Nat) : MenuScreen :=
  (((MenuScreen.new "Menu").add_item "A" a).add_item "B" b).add_item "C" c

/-- Handle `ButtonPressed(33)` (navigation) `k` times in a row. -/
def iterateNav (m : MenuScreen) : Nat → MenuScreen
  | 0 => m
  | k + 1 => ((iterateNav m k).handle_event (Event.buttonPressed 33)).1

/-! ## Claim theorems -/

/-- C1: a `ButtonEventSource` with the default 50 ms debounce window, in
steady state (constructed at least one debounce window before the first
transition), observing pin transitions low at t=0, high at t=10 ms, low at
t=20 ms and high at t=60 ms, emits exactly `ButtonPressed(pin_number)` at
t=0 and `ButtonReleased(pin_number)` at t=60 ms, and nothing for the
transitions at 10 and 20 ms. -/
theorem button_debounce_scenario (pin : Nat) (c : Int) (h : c ≤ -50) :
    ButtonEventSource.pollTrace (ButtonEventSource.new pin c)
      [(false, 0), (true, 10), (false, 20), (true, 60)] =
      [(0, Event.buttonPressed pin), (60, Event.buttonReleased pin)] := by
  have h0 : ((0 : Int) - c ≥ 50) := by omega
  simp only [ButtonEventSource.pollTrace, ButtonEventSource.poll,
    ButtonEventSource.new, ge_iff_le]
  rw [if_pos (by omega : (50 : Int) ≤ 0 - c)]
  norm_num

/-- C1 witness: the scenario at pin 33 with construction at t=-50 ms. -/
theorem button_debounce_scenario_witness :
    ButtonEventSource.pollTrace (ButtonEventSource.new 33 (-50))
      [(false, 0), (true, 10), (false, 20), (true, 60)] =
      [(0, Event.buttonPressed 33), (60, Event.buttonReleased 33)] :=
  button_debounce_scenario 33 (-50) (by decide)

/-- C2 counterexample: at width 3 and progress 1, `draw_progress_bar` issues
only the outline rectangle — no 1-pixel-wide fill appears, refuting the
claim's `p=1, w ≥ 3` clause (`fill_width = 3*1/100 = 0`). -/
theorem progress_bar_w3_p1_only_outline :
    draw_progress_bar 0 0 3 1 = [DrawCmd.rect 0 0 3 8 false] ∧
    ∀ x y w h, DrawCmd.rect x y w h true ∉ draw_progress_bar 0 0 3 1 := by
  constructor
  · rfl
  · intro x y w h hmem
    rw [show draw_progress_bar 0 0 3 1 = [DrawCmd.rect 0 0 3 8 false] from rfl]
      at hmem
    simp at hmem

/-- C2 amended: `draw_progress_bar` clamps progress at 100 (every `p ≥ 100`
renders identically to `p = 100`) and draws only the height-8 outline at
`p = 0`; but at `p = 1` the inner fill (of width `w/100 - 2`, saturated)
appears only when `w ≥ 100` — for `3 ≤ w < 100` only the outline is drawn,
and the fill is 1 pixel wide exactly when `300 ≤ w ≤ 399`. -/
theorem progress_bar_clamp_and_fill :
    (∀ (x y : Int) (w p : Nat), 100 ≤ p →
      draw_progress_bar x y w p = draw_progress_bar x y w 100) ∧
    (∀ (x y : Int) (w : Nat),
      draw_progress_bar x y w 0 = [DrawCmd.rect x y w 8 false]) ∧
    (∀ (x y : Int) (w : Nat), w < 2 ^ 32 →
      draw_progress_bar x y w 1 =
        DrawCmd.rect x y w 8 false ::
          (if 100 ≤ w then
            [DrawCmd.rect (x + 1) (y + 1) (w / 100 - 2) 6 true]
          else [])) := by
  refine ⟨?_, ?_, ?_⟩
  · intro x y w p hp
    simp only [draw_progress_bar, draw_rectangle]
    rw [Nat.min_eq_right hp, Nat.min_self]
  · intro x y w
    simp [draw_progress_bar, draw_rectangle]
  · intro x y w hw
    simp only [draw_progress_bar, draw_rectangle]
    rw [Nat.min_eq_left (by norm_num), Nat.mul_one, Nat.mod_eq_of_lt hw]
    by_cases h100 : 100 ≤ w
    · rw [if_pos (by omega), if_pos h100]
      rfl
    · rw [if_neg (by omega), if_neg h100]
      rfl

/-- C2 witness: progress 120 renders like 100 at width 50; at width 300 and
progress 1 the inner fill is exactly 1 pixel wide. -/
theorem progress_bar_clamp_and_fill_witness :
    draw_progress_bar 0 0 50 120 = draw_progress_bar 0 0 50 100 ∧
    draw_progress_bar 0 0 300 1 =
      [DrawCmd.rect 0 0 300 8 false, DrawCmd.rect 1 1 1 6 true] := by
  constructor
  · exact progress_bar_clamp_and_fill.1 0 0 50 120 (by norm_num)
  · have h := progress_bar_clamp_and_fill.2.2 0 0 300 (by norm_num)
    simpa using h

/-- C3 counterexample: for `TextSize::Small` the per-character width the
`Label` measurement uses (5) differs from the width of the glyphs
`draw_text` renders with (`FONT_6X10`, 6 wide), refuting the claim for the
`Small` variant. -/
theorem textsize_small_metric_mismatch :
    ¬ (label_char_width TextSize.small =
          (draw_text_font TextSize.small).charW ∧
       label_line_height TextSize.small =
          (draw_text_font TextSize.small).lineH) := by
  decide

/-- C3 amended: `draw_text` renders every `TextSize` variant with
`FONT_6X10` (6×10 glyphs); the `Label` measurement metrics agree with the
rendered glyph metrics exactly for `Normal` — `Small` measures (5, 8) and
`Large` (8, 16), both differing from the rendered (6, 10). -/
theorem textsize_single_font_metrics :
    (∀ s, draw_text_font s = FONT_6X10) ∧
    (∀ s, (label_char_width s = FONT_6X10.charW ∧
           label_line_height s = FONT_6X10.lineH) ↔ s = TextSize.normal) := by
  constructor
  · intro s
    cases s <;> rfl
  · intro s
    cases s <;> simp [label_char_width, label_line_height, FONT_6X10]

/-- C8: on a `MenuScreen` with items ["A","B","C"] and `selected_index = 0`,
one `ButtonPressed(33)` sets `selected_index = 1`, two more wrap it through
2 back to 0, and a following `ButtonPressed(32)` invokes exactly the action
associated with item "A", exactly once. -/
theorem menu_navigation_scenario (a b c : Nat) :
    (iterateNav (menuABC a b c) 1).selected_index = 1 ∧
    (iterateNav (menuABC a b c) 2).selected_index = 2 ∧
    (iterateNav (menuABC a b c) 3).selected_index = 0 ∧
    ((iterateNav (menuABC a b c) 3).handle_event
        (Event.buttonPressed 32)).2.2 = [a] := by
  refine ⟨rfl, rfl, ?_, ?_⟩ <;>
    simp [iterateNav, menuABC, MenuScreen.handle_event, MenuScreen.select_next,
      MenuScreen.activate_selected, MenuScreen.add_item, MenuScreen.new,
      MenuItem.new]

/-- C10: a `ScreenManager` with no screens panics (out-of-bounds `Vec`
index on `screens[current_screen]`) both in `process_events` when the queue
holds at least one event and in `get_screen_as_mut`, instead of returning
an error value or `None`. -/
theorem screen_manager_empty_panics (σ : Type) (step : σ → Event → σ × Bool)
    (isT : σ → Bool) (e : Event) (es : List Event) :
    ((ScreenManager.new σ (e :: es)).process_events step).1 =
      Except.error "panicked at index out of bounds" ∧
    (ScreenManager.new σ (e :: es)).get_screen_as_mut isT =
      Except.error "panicked at index out of bounds" :=
  ⟨rfl, rfl⟩

/-- C9 counterexample: with one screen and one queued event,
`process_events` dispatches the event at lock depth 1 — the queue lock is
still held while `handle_event` runs, refuting the claim that the lock is
released before dispatching. -/
theorem process_events_lock_held_cex :
    ¬ dispatchesOutsideLock
        ((((ScreenManager.new Unit [Event.systemTick]).add_screen
            ()).process_events (fun s _ => (s, false))).2) := by
  intro h
  have h1 := h 1 Event.systemTick rfl
  exact absurd h1 (by decide)

/-- `Label::set_text` re-derives the width from the new text and the stored
size, and touches nothing else of the geometry. -/
lemma set_text_effect (l : Label) (t : String) :
    (l.set_text t).bounds.width = t.utf8ByteSize * label_char_width l.size ∧
    (l.set_text t).position = l.position ∧
    (l.set_text t).bounds.x = l.bounds.x ∧
    (l.set_text t).bounds.y = l.bounds.y ∧
    (l.set_text t).size = l.size ∧
    (l.set_text t).text = t := by
  rcases l with ⟨text, pos, size, bounds⟩
  cases size <;> simp [Label.set_text, label_char_width]

/-- The width-measurement invariant is preserved by any sequence of
`set_text` calls, which also never move the label. -/
lemma applySetTexts_inv (ts : List String) (l : Label)
    (h : l.bounds.width = l.text.utf8ByteSize * label_char_width l.size) :
    (applySetTexts l ts).bounds.width =
      (applySetTexts l ts).text.utf8ByteSize *
        label_char_width (applySetTexts l ts).size ∧
    (applySetTexts l ts).position = l.position ∧
    (applySetTexts l ts).bounds.x = l.bounds.x ∧
    (applySetTexts l ts).bounds.y = l.bounds.y := by
  induction ts generalizing l with
  | nil => exact ⟨h, rfl, rfl, rfl⟩
  | cons t ts ih =>
    have hst := set_text_effect l t
    have hstep : (l.set_text t).bounds.width =
        (l.set_text t).text.utf8ByteSize *
          label_char_width (l.set_text t).size := by
      rw [hst.1, hst.2.2.2.2.1, hst.2.2.2.2.2]
    have hrec := ih (l.set_text t) hstep
    have heq : applySetTexts l (t :: ts) = applySetTexts (l.set_text t) ts :=
      rfl
    rw [heq]
    exact ⟨hrec.1, hrec.2.1.trans hst.2.1, hrec.2.2.1.trans hst.2.2.1,
      hrec.2.2.2.trans hst.2.2.2.1⟩

/-- C7: after `Label::new` and any sequence of `set_text` calls,
`bounds.width = text.len() * char_w(size)`, and the position (and
`bounds.x`, `bounds.y`) still equal the construction coordinates. -/
theorem label_width_invariant (t0 : String) (x y : Int) (size : TextSize)
    (ts : List String) :
    (applySetTexts (Label.new t0 x y size) ts).bounds.width =
      (applySetTexts (Label.new t0 x y size) ts).text.utf8ByteSize *
        label_char_width (applySetTexts (Label.new t0 x y size) ts).size ∧
    (applySetTexts (Label.new t0 x y size) ts).position = ⟨x, y⟩ ∧
    (applySetTexts (Label.new t0 x y size) ts).bounds.x = x ∧
    (applySetTexts (Label.new t0 x y size) ts).bounds.y = y := by
  have hnew : (Label.new t0 x y size).bounds.width =
      (Label.new t0 x y size).text.utf8ByteSize *
        label_char_width (Label.new t0 x y size).size := by
    cases size <;> simp [Label.new, label_char_width]
  have h := applySetTexts_inv ts (Label.new t0 x y size) hnew
  refine ⟨h.1, ?_, ?_, ?_⟩
  · rw [h.2.1]; rfl
  · rw [h.2.2.1]; rfl
  · rw [h.2.2.2]; rfl

/-- A core widget whose `handle_event` returns `false` is left unchanged
and invokes no callback. -/
lemma widget_not_handled_id (w : WidgetV) (e : Event)
    (h : handlesEvent w e = false) : w.handle_event e = (w, false, []) := by
  cases w with
  | labelW l => rfl
  | progressBarW p => rfl
  | buttonW b =>
    cases e with
    | buttonPressed pin =>
      by_cases hp : pin = 26
      · simp [handlesEvent, WidgetV.handle_event, Button.handle_event, hp]
          at h
      · simp [WidgetV.handle_event, Button.handle_event, hp]
    | buttonReleased pin =>
      by_cases hp : pin = 26
      · simp [handlesEvent, WidgetV.handle_event, Button.handle_event, hp]
          at h
      · simp [WidgetV.handle_event, Button.handle_event, hp]
    | timer id => rfl
    | systemTick => rfl
    | appLaunched n => rfl
    | appClosed n => rfl
    | custom t => rfl

/-- When widget `i` is the first handler, the dispatch loop updates exactly
that widget, reports `true`, and surfaces exactly its callbacks. -/
lemma dispatchWidgets_some (e : Event) :
    ∀ (ws : List WidgetV) (i : Nat), firstHandler ws e = some i →
      ∃ w, ws.get? i = some w ∧ handlesEvent w e = true ∧
        dispatchWidgets ws e =
          (ws.set i (w.handle_event e).1, true, (w.handle_event e).2.2) := by
  intro ws
  induction ws with
  | nil => intro i hi; simp [firstHandler] at hi
  | cons w ws ih =>
    intro i hi
    cases hw : handlesEvent w e with
    | true =>
      rw [firstHandler, if_pos hw] at hi
      cases hi
      refine ⟨w, rfl, hw, ?_⟩
      have hwe : w.handle_event e =
          ((w.handle_event e).1, true, (w.handle_event e).2.2) := by
        rcases hwev : w.handle_event e with ⟨w', handled, calls⟩
        have : handled = true := by
          have := hw
          rw [handlesEvent, hwev] at this
          exact this
        simp [this]
      rw [dispatchWidgets]
      rw [hwe]
      rfl
    | false =>
      rw [firstHandler, if_neg (by simp [hw])] at hi
      rw [Option.map_eq_some'] at hi
      obtain ⟨j, hj, rfl⟩ := hi
      obtain ⟨w0, hget, hwh, hdisp⟩ := ih j hj
      have hne := widget_not_handled_id w e hw
      refine ⟨w0, hget, hwh, ?_⟩
      rw [dispatchWidgets, hne]
      simp only [hdisp]
      rfl

/-- Every widget strictly before the first handler returns `false` for the
event. -/
lemma firstHandler_earlier (e : Event) :
    ∀ (ws : List WidgetV) (i : Nat), firstHandler ws e = some i →
      ∀ j, j < i → ∀ w, ws.get? j = some w → handlesEvent w e = false := by
  intro ws
  induction ws with
  | nil => intro i hi; simp [firstHandler] at hi
  | cons w ws ih =>
    intro i hi j hj w0 hget
    cases hw : handlesEvent w e with
    | true =>
      rw [firstHandler, if_pos hw] at hi
      cases hi
      exact absurd hj (Nat.not_lt_zero j)
    | false =>
      rw [firstHandler, if_neg (by simp [hw])] at hi
      rw [Option.map_eq_some'] at hi
      obtain ⟨k, hk, rfl⟩ := hi
      cases j with
      | zero =>
        cases hget
        exact hw
      | succ j =>
        exact ih k hk j (Nat.lt_of_succ_lt_succ hj) w0 hget

/-- C6: when widget `i` is the first (in insertion order) whose
`handle_event` returns `true`, `DefaultScreen::handle_event` returns
`true` (for every display behaviour, including a failing repaint), leaves
every other widget unchanged, got `false` from every widget before `i`,
and attempted exactly one repaint of the updated screen, whose (possibly
failing) result it discarded. -/
theorem default_screen_first_handler (s : DefaultScreen) (d : DisplayState)
    (e : Event) (i : Nat) (hi : firstHandler s.widgets e = some i) :
    (s.handle_event d e).2.1 = true ∧
    (∀ j, j ≠ i →
      (s.handle_event d e).1.widgets.get? j = s.widgets.get? j) ∧
    (∀ j, j < i → ∀ w, s.widgets.get? j = some w →
      handlesEvent w e = false) ∧
    (s.handle_event d e).2.2.2 = some ((s.handle_event d e).1.draw d) := by
  obtain ⟨w, hget, hwh, hdisp⟩ := dispatchWidgets_some e s.widgets i hi
  have hhe : s.handle_event d e =
      ({ widgets := s.widgets.set i (w.handle_event e).1 }, true,
        (w.handle_event e).2.2,
        some (DefaultScreen.draw
          { widgets := s.widgets.set i (w.handle_event e).1 } d)) := by
    rw [DefaultScreen.handle_event]
    simp only [hdisp]
    exact if_pos trivial
  refine ⟨by rw [hhe], ?_, firstHandler_earlier e s.widgets i hi, by rw [hhe]⟩
  intro j hj
  rw [hhe]
  exact List.get?_set_ne _ _ (fun h => hj h.symm)

/-- C6 witness: a screen whose only widget is a button handles
`ButtonPressed(26)` and reports `true` even though every draw primitive of
the repaint fails. -/
theorem default_screen_first_handler_witness :
    ((DefaultScreen.new.add_widget
        (WidgetV.buttonW (Button.new "OK" 0 0 40 15))).handle_event
      ⟨fun _ => true⟩ (Event.buttonPressed 26)).2.1 = true :=
  (default_screen_first_handler
    (DefaultScreen.new.add_widget
      (WidgetV.buttonW (Button.new "OK" 0 0 40 15)))
    ⟨fun _ => true⟩ (Event.buttonPressed 26) 0 rfl).1

/-! ## Scheduler lemmas -/

/-- `popMin` returns `none` only on the empty heap. -/
lemma popMin_eq_none {l : List ScheduledTask} (h : popMin l = none) :
    l = [] := by
  cases l with
  | nil => rfl
  | cons t ts =>
    exfalso
    rcases hp : popMin ts with _ | ⟨m, rest⟩
    · simp [popMin, hp] at h
    · by_cases hc : t.next_run ≤ m.next_run <;> simp [popMin, hp, hc] at h

/-- The element `popMin` returns has minimal `next_run` in the heap. -/
lemma popMin_min {l : List ScheduledTask} {m : ScheduledTask}
    {rest : List ScheduledTask} (h : popMin l = some (m, rest)) :
    ∀ t ∈ l, m.next_run ≤ t.next_run := by
  induction l generalizing m rest with
  | nil => simp [popMin] at h
  | cons t ts ih =>
    rcases hp : popMin ts with _ | ⟨m', rest'⟩
    · have hts := popMin_eq_none hp
      subst hts
      simp [popMin] at h
      obtain ⟨rfl, rfl⟩ := h
      intro u hu
      rcases List.mem_singleton.mp hu with rfl
      exact le_refl _
    · by_cases hc : t.next_run ≤ m'.next_run
      · simp [popMin, hp, hc] at h
        obtain ⟨rfl, rfl⟩ := h
        intro u hu
        rcases List.mem_cons.mp hu with rfl | hu
        · exact le_refl _
        · exact le_trans hc (ih hp u hu)
      · simp [popMin, hp, hc] at h
        obtain ⟨rfl, rfl⟩ := h
        intro u hu
        rcases List.mem_cons.mp hu with rfl | hu
        · exact le_of_not_le hc
        · exact ih hp u hu

/-- `popMin` is a removal: the heap is a permutation of the popped element
consed on the remainder. -/
lemma popMin_perm {l : List ScheduledTask} {m : ScheduledTask}
    {rest : List ScheduledTask} (h : popMin l = some (m, rest)) :
    l.Perm (m :: rest) := by
  induction l generalizing m rest with
  | nil => simp [popMin] at h
  | cons t ts ih =>
    rcases hp : popMin ts with _ | ⟨m', rest'⟩
    · have hts := popMin_eq_none hp
      subst hts
      simp [popMin] at h
      obtain ⟨rfl, rfl⟩ := h
      exact List.Perm.refl _
    · by_cases hc : t.next_run ≤ m'.next_run
      · simp [popMin, hp, hc] at h
        obtain ⟨rfl, rfl⟩ := h
        exact List.Perm.refl _
      · simp [popMin, hp, hc] at h
        obtain ⟨rfl, rfl⟩ := h
        exact ((ih hp).cons t).trans (List.Perm.swap m' t rest')

/-- When every task is due and the fuel covers the heap, the update loop
fires a permutation of the heap, in non-decreasing `next_run` order. -/
lemma updateLoop_all_due {now : Int} :
    ∀ (fuel : Nat) (tasks : List ScheduledTask),
      tasks.length ≤ fuel → (∀ t ∈ tasks, t.next_run ≤ now) →
      (updateLoop fuel tasks now).2.1.Perm tasks ∧
      List.Pairwise (fun a b => a.next_run ≤ b.next_run)
        (updateLoop fuel tasks now).2.1 := by
  intro fuel
  induction fuel with
  | zero =>
    intro tasks hlen hdue
    have htasks : tasks = [] := List.length_eq_zero.mp (Nat.le_zero.mp hlen)
    subst htasks
    exact ⟨List.Perm.refl _, List.Pairwise.nil⟩
  | succ fuel ih =>
    intro tasks hlen hdue
    rcases hp : popMin tasks with _ | ⟨task, rest⟩
    · have htasks := popMin_eq_none hp
      subst htasks
      exact ⟨List.Perm.refl _, List.Pairwise.nil⟩
    · have hperm := popMin_perm hp
      have htask : task ∈ tasks :=
        hperm.symm.subset (List.mem_cons_self _ _)
      have hdue_task : task.next_run ≤ now := hdue task htask
      have hlen' : rest.length ≤ fuel := by
        have hl := hperm.length_eq
        simp at hl
        omega
      have hdue' : ∀ t ∈ rest, t.next_run ≤ now := fun t ht =>
        hdue t (hperm.symm.subset (List.mem_cons_of_mem _ ht))
      obtain ⟨hfp, hfs⟩ := ih rest hlen' hdue'
      rcases hu : updateLoop fuel rest now with ⟨tasks', fired, res'⟩
      rw [hu] at hfp hfs
      have hloop : (updateLoop (fuel + 1) tasks now).2.1 = task :: fired := by
        simp only [updateLoop, hp, hu]
        rw [if_pos hdue_task]
      rw [hloop]
      constructor
      · exact (hfp.cons task).trans hperm.symm
      · refine List.Pairwise.cons ?_ hfs
        intro b hb
        have hbtasks : b ∈ tasks :=
          hperm.symm.subset (List.mem_cons_of_mem _ (hfp.subset hb))
        exact popMin_min hp b hbtasks

/-- Tasks produced by a fold of `schedule_once` over delays `ds` at base
time `t0` either pre-existed or run at `t0 + d` for some `d ∈ ds`. -/
lemma scheduleAll_go (t0 : Int) :
    ∀ (ds : List Int) (s : Scheduler) (t : ScheduledTask),
      t ∈ (ds.foldl (fun s d => (s.schedule_once t0 d).1) s).tasks →
      t ∈ s.tasks ∨ ∃ d ∈ ds, t.next_run = t0 + d := by
  intro ds
  induction ds with
  | nil => exact fun s t ht => Or.inl ht
  | cons d ds ih =>
    intro s t ht
    rcases ih (s.schedule_once t0 d).1 t ht with h | ⟨d', hd', he⟩
    · simp only [Scheduler.schedule_once] at h
      rcases List.mem_append.mp h with h | h
      · exact Or.inl h
      · rcases List.mem_singleton.mp h with rfl
        exact Or.inr ⟨d, List.mem_cons_self _ _, rfl⟩
    · exact Or.inr ⟨d', List.mem_cons_of_mem _ hd', he⟩

/-- C4: tasks scheduled with delays `d1 ≤ d2 ≤ … ≤ dk` at time `t0` are,
by an `update()` at any time past `t0 + dk`, all popped and fired in
non-decreasing `next_run` order (min-heap semantics), and the emitted
events are `Timer(id)` of the fired tasks in that order. -/
theorem scheduler_update_fires_in_order (t0 : Int) (ds : List Int)
    (now : Int) (_hsorted : ds.Sorted (· ≤ ·))
    (hnow : ∀ d ∈ ds, t0 + d < now) :
    List.Pairwise (fun a b => a.next_run ≤ b.next_run)
      ((scheduleAll t0 ds).updateFired now) ∧
    ((scheduleAll t0 ds).updateFired now).Perm (scheduleAll t0 ds).tasks ∧
    ((scheduleAll t0 ds).update now).2 =
      ((scheduleAll t0 ds).updateFired now).map
        (fun t => Event.timer t.id) := by
  have hdue : ∀ t ∈ (scheduleAll t0 ds).tasks, t.next_run ≤ now := by
    intro t ht
    rcases scheduleAll_go t0 ds Scheduler.new t ht with h | ⟨d, hd, he⟩
    · simp [Scheduler.new] at h
    · rw [he]
      exact le_of_lt (hnow d hd)
  obtain ⟨hperm, hsort⟩ :=
    updateLoop_all_due (scheduleAll t0 ds).tasks.length
      (scheduleAll t0 ds).tasks le_rfl hdue
  refine ⟨hsort, hperm, ?_⟩
  rcases hu : updateLoop (scheduleAll t0 ds).tasks.length
      (scheduleAll t0 ds).tasks now with ⟨tasks', fired, res'⟩
  simp [Scheduler.update, Scheduler.updateFired, hu]

/-- C4 witness: two tasks with delays 5 and 10 ms scheduled at t0=0 fire,
at an update at t=100, in non-decreasing `next_run` order. -/
theorem scheduler_update_fires_in_order_witness :
    List.Pairwise (fun a b => a.next_run ≤ b.next_run)
      ((scheduleAll 0 [5, 10]).updateFired 100) :=
  (scheduler_update_fires_in_order 0 [5, 10] 100 (by decide)
    (by decide)).1

/-- The update loop neither fires nor retains nor reschedules any task
with an id absent from the heap. -/
lemma updateLoop_id_free {id : Nat} {now : Int} :
    ∀ (fuel : Nat) (tasks : List ScheduledTask),
      (∀ t ∈ tasks, t.id ≠ id) →
      (∀ t ∈ (updateLoop fuel tasks now).1, t.id ≠ id) ∧
      (∀ t ∈ (updateLoop fuel tasks now).2.1, t.id ≠ id) ∧
      (∀ t ∈ (updateLoop fuel tasks now).2.2, t.id ≠ id) := by
  intro fuel
  induction fuel with
  | zero =>
    intro tasks h
    exact ⟨h, by simp [updateLoop], by simp [updateLoop]⟩
  | succ fuel ih =>
    intro tasks h
    rcases hp : popMin tasks with _ | ⟨task, rest⟩
    · rw [show updateLoop (fuel + 1) tasks now = (tasks, [], []) by
        simp only [updateLoop, hp]]
      exact ⟨h, by simp, by simp⟩
    · have hperm := popMin_perm hp
      have htask : task ∈ tasks := hperm.symm.subset (List.mem_cons_self _ _)
      have hrest : ∀ t ∈ rest, t.id ≠ id := fun t ht =>
        h t (hperm.symm.subset (List.mem_cons_of_mem _ ht))
      by_cases hd : task.next_run ≤ now
      · rcases hu : updateLoop fuel rest now with ⟨tasks', fired, res'⟩
        obtain ⟨h1, h2, h3⟩ := ih rest hrest
        rw [hu] at h1 h2 h3
        have hloop : updateLoop (fuel + 1) tasks now =
            (tasks', task :: fired,
              (match task.interval with
                | some interval =>
                  [{ id := task.id, next_run := now + interval,
                     interval := some interval }]
                | none => []) ++ res') := by
          simp only [updateLoop, hp, hu]
          rw [if_pos hd]
        rw [hloop]
        refine ⟨h1, ?_, ?_⟩
        · intro t ht
          rcases List.mem_cons.mp ht with rfl | ht
          · exact h t htask
          · exact h2 t ht
        · intro t ht
          rcases List.mem_append.mp ht with ht | ht
          · rcases hi : task.interval with _ | interval
            · rw [hi] at ht
              simp at ht
            · rw [hi] at ht
              rcases List.mem_singleton.mp ht with rfl
              exact h task htask
          · exact h3 t ht
      · rw [show updateLoop (fuel + 1) tasks now = (tasks, [], []) by
          simp only [updateLoop, hp]
          rw [if_neg hd]]
        exact ⟨h, by simp, by simp⟩

/-- `Scheduler::update` preserves the absence of an id and emits no
`Timer` event for it. -/
lemma update_id_free {id : Nat} (s : Scheduler) (now : Int)
    (h : ∀ t ∈ s.tasks, t.id ≠ id) :
    (∀ t ∈ ((s.update now).1).tasks, t.id ≠ id) ∧
    Event.timer id ∉ (s.update now).2 := by
  rcases hu : updateLoop s.tasks.length s.tasks now with ⟨tasks', fired, res'⟩
  obtain ⟨h1, h2, h3⟩ := updateLoop_id_free s.tasks.length s.tasks h
  rw [hu] at h1 h2 h3
  simp only [Scheduler.update, hu]
  constructor
  · intro t ht
    rcases List.mem_append.mp ht with ht | ht
    · exact h1 t ht
    · exact h3 t ht
  · intro hmem
    rw [List.mem_map] at hmem
    obtain ⟨t, ht, he⟩ := hmem
    cases he
    exact h2 t ht rfl

/-- No sequence of `update` calls ever emits `Timer(id)` once no task in
the heap carries `id`. -/
lemma runUpdates_id_free {id : Nat} :
    ∀ (nows : List Int) (s : Scheduler), (∀ t ∈ s.tasks, t.id ≠ id) →
      Event.timer id ∉ (s.runUpdates nows).2 := by
  intro nows
  induction nows with
  | nil =>
    intro s h
    simp [Scheduler.runUpdates]
  | cons now nows ih =>
    intro s h
    obtain ⟨h1, h2⟩ := update_id_free s now h
    rcases hu : s.update now with ⟨s', evs⟩
    rw [hu] at h1 h2
    rcases hr : s'.runUpdates nows with ⟨s'', evs'⟩
    simp only [Scheduler.runUpdates, hu, hr]
    intro hmem
    rcases List.mem_append.mp hmem with hm | hm
    · exact h2 hm
    · have hih := ih s' h1
      rw [hr] at hih
      exact hih hm

/-- C5: `cancel_task(id)` removes the task with that id exactly when one is
present and returns whether it removed anything; on an absent id it returns
`false` and leaves the task set unchanged; and after the cancel no later
sequence of `update()` calls ever emits `Timer(id)`. -/
theorem scheduler_cancel_spec (s : Scheduler) (id : Nat) (nows : List Int) :
    ((s.cancel_task id).2 = true ↔ ∃ t ∈ s.tasks, t.id = id) ∧
    (∀ t ∈ (s.cancel_task id).1.tasks, t.id ≠ id) ∧
    ((∀ t ∈ s.tasks, t.id ≠ id) →
      (s.cancel_task id).1.tasks = s.tasks ∧ (s.cancel_task id).2 = false) ∧
    Event.timer id ∉ ((s.cancel_task id).1.runUpdates nows).2 := by
  have hfree : ∀ t ∈ (s.cancel_task id).1.tasks, t.id ≠ id := by
    intro t ht
    simp only [Scheduler.cancel_task] at ht
    have := List.of_mem_filter ht
    simpa using this
  refine ⟨?_, hfree, ?_, runUpdates_id_free nows _ hfree⟩
  · simp only [Scheduler.cancel_task]
    rw [decide_eq_true_iff]
    constructor
    · intro hne
      by_contra hno
      push_neg at hno
      have hall : ∀ t ∈ s.tasks, (fun t => decide (t.id ≠ id)) t = true := by
        intro t ht
        simpa using hno t ht
      exact hne (List.filter_length_eq_length.mpr hall).symm
    · rintro ⟨t, ht, hid⟩
      intro hlen
      have hall := List.filter_length_eq_length.mp hlen.symm
      have := hall t ht
      simp [hid] at this
  · intro hall
    have hfilter : s.tasks.filter (fun t => decide (t.id ≠ id)) = s.tasks :=
      List.filter_eq_self.mpr (fun t ht => by simpa using hall t ht)
    constructor
    · simp only [Scheduler.cancel_task]
      exact hfilter
    · simp only [Scheduler.cancel_task]
      rw [hfilter]
      simp

/-- C5 witness: cancelling an unknown id on a one-task scheduler returns
`false` and leaves the task set unchanged. -/
theorem scheduler_cancel_spec_witness :
    (((Scheduler.new.schedule_once 0 10).1.cancel_task 5).1.tasks =
        (Scheduler.new.schedule_once 0 10).1.tasks) ∧
    ((Scheduler.new.schedule_once 0 10).1.cancel_task 5).2 = false := by
  have h := scheduler_cancel_spec (Scheduler.new.schedule_once 0 10).1 5 [100]
  exact h.2.2.1 (by decide)

/-! ## ScreenManager lemmas -/

/-- Dispatch actions do not change the lock depth. -/
lemma lockDepth_foldl_dispatch (l : List Event) (n : Int) :
    List.foldl
      (fun n a =>
        match a with
        | QAction.acquire => n + 1
        | QAction.release => n - 1
        | QAction.dispatch _ => n)
      n (l.map QAction.dispatch) = n := by
  induction l generalizing n with
  | nil => rfl
  | cons e l ih => exact ih n

/-- In a trace of the form `acquire; dispatch*; release`, every dispatch
happens at lock depth 1. -/
lemma dispatches_under_lock_shape (l : List Event) :
    dispatchesUnderLock
      (QAction.acquire :: (l.map QAction.dispatch ++ [QAction.release])) := by
  intro i e hi
  cases i with
  | zero => simp at hi
  | succ j =>
    have hi' : (l.map QAction.dispatch ++ [QAction.release]).get? j =
        some (QAction.dispatch e) := hi
    have hjlen : j < l.length := by
      by_contra hge
      push_neg at hge
      rw [List.get?_append_right (by simpa using hge)] at hi'
      rcases hdiff : j - (l.map QAction.dispatch).length with _ | k
      · rw [hdiff] at hi'
        simp at hi'
      · rw [hdiff] at hi'
        simp at hi'
    have htake : (QAction.acquire ::
          (l.map QAction.dispatch ++ [QAction.release])).take (j + 1) =
        QAction.acquire :: (l.take j).map QAction.dispatch := by
      rw [List.take_cons (Nat.succ_pos j)]
      congr 1
      rw [Nat.succ_sub_one,
        List.take_append_of_le_length (by simpa using le_of_lt hjlen)]
      simp [List.map_take]
    rw [htake, lockDepth]
    simp only [List.foldl]
    exact lockDepth_foldl_dispatch (l.take j) 1

/-- When the current screen index is in range, the drain loop never
panics and dispatches exactly the queued events in order. -/
lemma processLoop_ok_trace {σ : Type} (step : σ → Event → σ × Bool) :
    ∀ (q : List Event) (screens : List σ) (cur : Nat),
      cur < screens.length →
      (processLoop step q screens cur).2 = q.map QAction.dispatch ∧
      ∃ ss, (processLoop step q screens cur).1 = Except.ok ss := by
  intro q
  induction q with
  | nil =>
    intro screens cur h
    exact ⟨rfl, _, rfl⟩
  | cons e es ih =>
    intro screens cur h
    have hs : screens.get? cur = some (screens.get ⟨cur, h⟩) :=
      List.get?_eq_get h
    have h' : cur < (screens.set cur
        ((step (screens.get ⟨cur, h⟩) e).1)).length := by
      simpa using h
    obtain ⟨htr, ss, hok⟩ := ih _ cur h'
    rcases hl : processLoop step es
        (screens.set cur ((step (screens.get ⟨cur, h⟩) e).1)) cur
      with ⟨r, tr⟩
    rw [hl] at htr hok
    have htr' : tr = es.map QAction.dispatch := htr
    have hok' : r = Except.ok ss := hok
    have hcons : processLoop step (e :: es) screens cur =
        (r, QAction.dispatch e :: tr) := by
      simp only [processLoop, hs, hl]
    rw [hcons, htr', hok']
    exact ⟨rfl, ss, rfl⟩

/-- C9 amended: `process_events` takes the queue lock once, dispatches the
queued events to the active screen in FIFO order while the lock is held
(lock depth 1 at every dispatch — the lock is not released before
dispatching), releases the lock afterwards, and completes without error
whenever a screen is active. -/
theorem process_events_fifo_under_lock (σ : Type)
    (step : σ → Event → σ × Bool) (m : ScreenManager σ)
    (h : m.current_screen < m.screens.length) :
    (m.process_events step).2 =
      QAction.acquire ::
        (m.event_queue.map QAction.dispatch ++ [QAction.release]) ∧
    dispatchesUnderLock (m.process_events step).2 ∧
    ∃ m', (m.process_events step).1 = Except.ok m' := by
  obtain ⟨htr, ss, hok⟩ :=
    processLoop_ok_trace step m.event_queue m.screens m.current_screen h
  rcases hl : processLoop step m.event_queue m.screens m.current_screen
    with ⟨r, tr⟩
  rw [hl] at htr hok
  have htr' : tr = m.event_queue.map QAction.dispatch := htr
  have hok' : r = Except.ok ss := hok
  subst htr'
  subst hok'
  have hpe : m.process_events step =
      (Except.ok { m with screens := ss, event_queue := [] },
        QAction.acquire ::
          (m.event_queue.map QAction.dispatch ++ [QAction.release])) := by
    simp only [ScreenManager.process_events, hl]
    rfl
  rw [hpe]
  exact ⟨rfl, dispatches_under_lock_shape m.event_queue, _, rfl⟩

/-- C9 amended witness: one screen, one queued event — the trace is
`acquire; dispatch; release` and the run succeeds. -/
theorem process_events_fifo_under_lock_witness :
    ((⟨[()], 0, [Event.systemTick]⟩ :
        ScreenManager Unit).process_events (fun s _ => (s, false))).2 =
      [QAction.acquire, QAction.dispatch Event.systemTick,
        QAction.release] := by
  have h := process_events_fifo_under_lock Unit (fun s _ => (s, false))
    ⟨[()], 0, [Event.systemTick]⟩ (by decide)
  simpa using h.1

end VisionHub
